import Mathlib

/-!
Verification of the tool execution and sandboxing layer of the `steward`
repository against its natural-language specification.

The TypeScript sources are shallowly embedded: absolute filesystem paths
become lists of path components (`List String`, the root `/` being `[]`),
the filesystem itself becomes an oracle structure (`FS`) supplying the
results of `realpath`/`access`, strings of scalar values become `List Nat`
where byte-level behaviour matters (UTF-8 truncation), and the effectful
tools become pure functions that also return a trace of the side effects
(spawned processes, audit-log appends) they would have performed.
-/

deriving instance DecidableEq for Except

namespace Steward

/-! ## Workspace boundary guard (`src/tools/shared.ts`, `ensureInsideWorkspace`)

Paths are modelled as lists of components of an absolute path, so `/w/a/b`
is `["w", "a", "b"]` and the filesystem root `/` is `[]`.  Components are
plain names: the callers of `ensureInsideWorkspace` always pass the result
of `normalizePath` (Node's `path.resolve`), which has already collapsed
`.` and `..` segments, so no component is literally `"."` or `".."`
(a component may still merely *begin* with those characters, e.g. `"..x"`).
Under that discipline Node's `path.join(ancestorReal, ...suffix)` is list
append and `path.dirname`/`path.basename` are `dropLast`/`getLast`. -/

/-- The filesystem oracle: the workspace root (`process.cwd()`), the
symlink-resolving `fs.realpath` (`none` models the rejection thrown for a
path that does not exist), and `fs.access` (whether the path exists). -/
structure FS where
  cwd : List String
  realpath : List String → Option (List String)
  access : List String → Bool

/-- Node's `path.relative(from, to)` on component lists: strip the common
prefix, then one `".."` per remaining component of `from` followed by the
remaining components of `to`. -/
def relativeComps : List String → List String → List String
  | [], to_ => to_
  | _ :: fs, [] => List.replicate (fs.length + 1) ".."
  | f :: fs, t :: ts =>
    if f = t then relativeComps fs ts
    else List.replicate (fs.length + 1) ".." ++ (t :: ts)

/-- JavaScript's `s.startsWith("..")`: the first two characters are dots. -/
def strStartsWithDotDot (s : String) : Bool :=
  match s.data with
  | '.' :: '.' :: _ => true
  | _ => false

/-- The guard's test `rel.startsWith("..")` on the joined relative path.
Since the components of `path.relative` output are either the literal
`".."` or real file names (never empty, never `"."`), the string produced
by joining with `/` starts with `".."` exactly when its first component
does. -/
def relHeadDotDot (rel : List String) : Bool :=
  match rel with
  | [] => false
  | c :: _ => strStartsWithDotDot c

/-- The ancestor-walk of `ensureInsideWorkspace`'s catch branch, processed
over the *reversed* component list so that `path.dirname` (dropLast) is the
structural tail.  An element `base :: revParent` is a path whose last
component is `base`; the loop looks up the real path of the parent and on
success re-appends the accumulated non-existent suffix, otherwise walks
further up.  Reaching `[]` is the `parent === current` case at the
filesystem root, which the source turns into the outside-workspace error
(modelled as `none`). -/
def walkUpRev (fs : FS) : List String → List String → Option (List String)
  | [], _ => none
  | base :: revParent, suffix =>
    match fs.realpath revParent.reverse with
    | some ancestorReal => some (ancestorReal ++ base :: suffix)
    | none => walkUpRev fs revParent (base :: suffix)

/-- The real path `ensureInsideWorkspace` compares against the root: the
target's own real path when it exists, otherwise the first existing
ancestor's real path joined with the non-existent suffix. -/
def resolveTarget (fs : FS) (abs : List String) : Option (List String) :=
  match fs.realpath abs with
  | some t => some t
  | none => walkUpRev fs abs.reverse []

/-- `ensureInsideWorkspace(abs, mustExist)` from `src/tools/shared.ts`:
resolve the workspace root and the target (via `resolveTarget`), reject
when the relative offset starts with `".."`, then enforce `mustExist`. -/
def ensureInsideWorkspace (fs : FS) (abs : List String) (mustExist : Bool) : Except String Unit :=
  match fs.realpath fs.cwd with
  | none => .error "realpath failed on workspace root"
  | some rootReal =>
    match resolveTarget fs abs with
    | none => .error "Path outside workspace"
    | some targetReal =>
      if relHeadDotDot (relativeComps rootReal targetReal) then
        .error "Path outside workspace"
      else if mustExist && !fs.access abs then
        .error "Path does not exist"
      else
        .ok ()

/-! ## UTF-8-capped output truncation (`src/tools/shared.ts`, `truncateOutput`)

Strings handed to `TextEncoder`/`TextDecoder` are modelled as lists of
Unicode scalar values (`List Nat`); `TextEncoder.encode` is standard UTF-8
encoding and `TextDecoder.decode` with default options is the WHATWG UTF-8
decoder, which turns each maximal invalid or incomplete byte sequence into
one U+FFFD (65533) replacement character. -/

/-- Standard UTF-8 encoding of one Unicode scalar value, written with
division/modulus (the bit operations of the usual presentation, on values
in range). -/
def utf8EncodeChar (c : Nat) : List Nat :=
  if c < 128 then [c]
  else if c < 2048 then [192 + c / 64, 128 + c % 64]
  else if c < 65536 then [224 + c / 4096, 128 + c / 64 % 64, 128 + c % 64]
  else [240 + c / 262144, 128 + c / 4096 % 64, 128 + c / 64 % 64, 128 + c % 64]

/-- `TextEncoder.encode`: UTF-8 bytes of a scalar-value string. -/
def utf8Encode : List Nat → List Nat
  | [] => []
  | c :: rest => utf8EncodeChar c ++ utf8Encode rest

/-- A UTF-8 continuation byte. -/
def isCont (b : Nat) : Bool := 128 ≤ b && b < 192

/-- WHATWG decoder: inclusive lower bound for the first continuation byte
after lead byte `b` (0xE0 → 0xA0, 0xF0 → 0x90, otherwise 0x80). -/
def contLo (b : Nat) : Nat := if b = 224 then 160 else if b = 240 then 144 else 128

/-- WHATWG decoder: exclusive upper bound for the first continuation byte
after lead byte `b` (0xED → 0xA0, 0xF4 → 0x90, otherwise 0xC0). -/
def contHi (b : Nat) : Nat := if b = 237 then 160 else if b = 244 then 144 else 192

/-- `TextDecoder.decode` with default options: the WHATWG UTF-8 decoder.
Valid sequences decode to their scalar value; an invalid byte emits one
U+FFFD and decoding restarts at the offending byte; an incomplete sequence
at the end of input emits one U+FFFD. -/
def utf8Decode : List Nat → List Nat
  | [] => []
  | b :: rest =>
    if b < 128 then b :: utf8Decode rest
    else if b < 194 || 244 < b then 65533 :: utf8Decode rest
    else if b < 224 then
      match rest with
      | [] => [65533]
      | b1 :: rest1 =>
        if isCont b1 then ((b - 192) * 64 + (b1 - 128)) :: utf8Decode rest1
        else 65533 :: utf8Decode (b1 :: rest1)
    else if b < 240 then
      match rest with
      | [] => [65533]
      | b1 :: rest1 =>
        if contLo b ≤ b1 && b1 < contHi b then
          match rest1 with
          | [] => [65533]
          | b2 :: rest2 =>
            if isCont b2 then ((b - 224) * 4096 + (b1 - 128) * 64 + (b2 - 128)) :: utf8Decode rest2
            else 65533 :: utf8Decode (b2 :: rest2)
        else 65533 :: utf8Decode (b1 :: rest1)
    else
      match rest with
      | [] => [65533]
      | b1 :: rest1 =>
        if contLo b ≤ b1 && b1 < contHi b then
          match rest1 with
          | [] => [65533]
          | b2 :: rest2 =>
            if isCont b2 then
              match rest2 with
              | [] => [65533]
              | b3 :: rest3 =>
                if isCont b3 then
                  ((b - 240) * 262144 + (b1 - 128) * 4096 + (b2 - 128) * 64 + (b3 - 128)) ::
                    utf8Decode rest3
                else 65533 :: utf8Decode (b3 :: rest3)
            else 65533 :: utf8Decode (b2 :: rest2)
        else 65533 :: utf8Decode (b1 :: rest1)

/-- A well-formed Unicode scalar value: in range and not a surrogate. -/
def wfScalar (c : Nat) : Bool := c < 1114112 && !(55296 ≤ c && c < 57344)

/-- Every element is a well-formed scalar value (JavaScript strings fed to
`TextEncoder` are sequences of scalar values; lone surrogates would already
have been replaced). -/
def wfScalars (s : List Nat) : Bool := s.all wfScalar

/-- Scalar values of a Lean string literal. -/
def strScalars (s : String) : List Nat := s.data.map Char.toNat

/-- The truncation marker `"\n[truncated]"` appended by `truncateOutput`. -/
def truncationMarker : List Nat := strScalars "\n[truncated]"

/-- `truncateOutput(body, maxBytes)` from `src/tools/shared.ts`: encode,
return the body unchanged when it fits, otherwise decode the first
`maxBytes` bytes and append the marker. -/
def truncateOutput (body : List Nat) (maxBytes : Nat) : List Nat :=
  let data := utf8Encode body
  if data.length ≤ maxBytes then body
  else utf8Decode (data.take maxBytes) ++ truncationMarker

/-! ## Process execution (`src/tools/execute.ts`, `executeTool`)

The tool is effectful; it is embedded as a pure function over three inputs:
the environment variables it reads (`ExecEnv`, with `STEWARD_EXEC_TIMEOUT_MS`
and `STEWARD_EXEC_MAX_OUTPUT_BYTES` already carried through
`Number.parseInt`/`envInt`), an oracle for what the operating system would
do (`ExecWorld`), and the structured arguments (`ExecArgs`, where
`command = none` models a missing or non-string `command`).  It returns the
thrown-or-returned result together with a trace of the effects the call
performs: the processes it spawns, the audit records it appends (the
append itself is best-effort in the source; the trace records the
attempted appends), whether an abort timer was set, and how many
milliseconds the call waited before returning (`none` on paths that throw
before spawning). -/

/-- The `{id, output, error}` object a tool handler returns; `output` is a
scalar-value string. -/
structure ToolOut where
  id : String
  output : List Nat
  error : Bool
deriving DecidableEq

/-- One `Bun.spawn` call: argv, working directory, whether stdout/stderr
are piped (`false` = ignored, background mode), and whether an abort
signal was attached. -/
structure SpawnReq where
  cmd : List String
  cwdUsed : String
  ioPiped : Bool
  withSignal : Bool
deriving DecidableEq

/-- One line of `.steward-exec-audit.log` as built by `auditExecute`
(timestamp omitted; paths are modelled as already workspace-relative
strings, so `relPath` is the identity on them). -/
structure AuditRecord where
  cmd : String
  args : List String
  cwd : String
  exitCode : Option Int
  mode : String
  truncated : Bool
  errMsg : Option String
deriving DecidableEq

structure ExecTrace where
  spawns : List SpawnReq
  audits : List AuditRecord
  timerSet : Bool
  elapsedMs : Option Nat
deriving DecidableEq

def emptyTrace : ExecTrace := ⟨[], [], false, none⟩

/-- The environment configuration read at the top of `executeTool`. -/
structure ExecEnv where
  allowExecute : Option String
  execAllow : Option String
  execDeny : Option String
  execTimeoutMs : Option Nat
  auditVar : Option String
  execMaxOutputBytes : Nat
deriving DecidableEq

/-- The OS oracle: whether the resolved cwd passes `ensureInsideWorkspace`,
whether `spawn` succeeds, and the child's pid, output, exit code and
wall-clock duration. -/
structure ExecWorld where
  cwdInside : Bool
  spawnOk : Bool
  spawnErrMsg : String
  pid : Nat
  stdoutScalars : List Nat
  stderrScalars : List Nat
  exitCode : Int
  durationMs : Nat
deriving DecidableEq

structure ExecArgs where
  command : Option String
  argList : List String
  cwdStr : String
  timeoutMs : Option Nat
  background : Bool
  stream : Bool
  maxOutputBytes : Option Nat
deriving DecidableEq

/-- JavaScript `String.prototype.trim` whitespace (the characters relevant
to comma-separated env lists). -/
def isSpaceChar (c : Char) : Bool := c = ' ' || c = '\t' || c = '\n' || c = '\r'

def trimChars (cs : List Char) : List Char :=
  ((cs.dropWhile isSpaceChar).reverse.dropWhile isSpaceChar).reverse

/-- `s.split(",")` on character lists. -/
def splitComma : List Char → List (List Char)
  | [] => [[]]
  | c :: rest =>
    if c = ',' then [] :: splitComma rest
    else
      match splitComma rest with
      | [] => [[c]]
      | h :: t => (c :: h) :: t

/-- `(s ?? "").split(",").map(x => x.trim()).filter(Boolean)`: the parsing
of `STEWARD_EXEC_ALLOW` / `STEWARD_EXEC_DENY`. -/
def splitTrim (s : Option String) : List (List Char) :=
  ((splitComma (s.getD "").data).map trimChars).filter (fun x => x ≠ [])

/-- `truncated.endsWith("[truncated]")`, the audit truncation flag. -/
def endsWithTruncated (out : List Nat) : Bool := (strScalars "[truncated]").isSuffixOf out

/-- The `exit …\nstdout:\n…\nstderr:\n…` body of the buffered mode. -/
def execBody (exitCode : Int) (stdout stderr : List Nat) : List Nat :=
  strScalars ("exit " ++ toString exitCode) ++ strScalars "\nstdout:\n" ++ stdout ++
    strScalars "\nstderr:\n" ++ stderr

/-- `executeTool` from `src/tools/execute.ts`.  The branch order mirrors the
source: enable flag, command type, allow-list, deny-list, workspace guard,
then background / streamed / buffered execution.  In buffered mode an abort
timer is set exactly when a timeout is in effect, and a timeout expiry
surfaces through the catch block (the abort rejects the awaited promises);
in streamed mode the child is awaited with no signal and no timer, so the
call returns only after `durationMs`, whatever the timeout. -/
def executeTool (env : ExecEnv) (w : ExecWorld) (a : ExecArgs) :
    Except String ToolOut × ExecTrace :=
  let maxOutputBytes := a.maxOutputBytes.getD env.execMaxOutputBytes
  let envAllow := splitTrim env.execAllow
  let envDeny := splitTrim env.execDeny
  let effectiveTimeout := match a.timeoutMs with
    | some t => some t
    | none => env.execTimeoutMs
  let auditEnabled := env.auditVar ≠ some "0"
  if env.allowExecute ≠ some "1" then
    (.error "execute tool disabled; set STEWARD_ALLOW_EXECUTE=1 to enable", emptyTrace)
  else
    match a.command with
    | none => (.error "\x27command\x27 must be a string", emptyTrace)
    | some command =>
      if envAllow ≠ [] ∧ command.data ∉ envAllow then
        (.error "command not allowed by STEWARD_EXEC_ALLOW", emptyTrace)
      else if envDeny ≠ [] ∧ command.data ∈ envDeny then
        (.error "command blocked by STEWARD_EXEC_DENY", emptyTrace)
      else if !w.cwdInside then
        (.error "Path outside workspace", emptyTrace)
      else if a.background then
        let req : SpawnReq := ⟨command :: a.argList, a.cwdStr, false, false⟩
        let audits := if auditEnabled then
          [⟨command, a.argList, a.cwdStr, none, "background", false, none⟩] else []
        (.ok ⟨"execute", strScalars ("started pid " ++ toString w.pid), false⟩,
          ⟨[req], audits, false, some 0⟩)
      else if a.stream then
        let req : SpawnReq := ⟨command :: a.argList, a.cwdStr, true, false⟩
        let capped := truncateOutput (w.stdoutScalars ++ w.stderrScalars) maxOutputBytes
        let audits := if auditEnabled then
          [⟨command, a.argList, a.cwdStr, some w.exitCode, "stream",
            endsWithTruncated capped, none⟩] else []
        (.ok ⟨"execute", capped, false⟩, ⟨[req], audits, false, some w.durationMs⟩)
      else
        let timerSet := effectiveTimeout.isSome
        let req : SpawnReq := ⟨command :: a.argList, a.cwdStr, true, effectiveTimeout.isSome⟩
        if !w.spawnOk then
          let audits := if auditEnabled then
            [⟨command, a.argList, a.cwdStr, none, "error", false, some w.spawnErrMsg⟩] else []
          (.ok ⟨"execute", strScalars ("error: " ++ w.spawnErrMsg), true⟩,
            ⟨[req], audits, timerSet, some 0⟩)
        else if (match effectiveTimeout with
            | some t => decide (t < w.durationMs)
            | none => false) then
          let audits := if auditEnabled then
            [⟨command, a.argList, a.cwdStr, none, "error", false,
              some "The operation was aborted."⟩] else []
          (.ok ⟨"execute", strScalars "error: The operation was aborted.", true⟩,
            ⟨[req], audits, timerSet, effectiveTimeout⟩)
        else
          let capped := truncateOutput (execBody w.exitCode w.stdoutScalars w.stderrScalars)
            maxOutputBytes
          let audits := if auditEnabled then
            [⟨command, a.argList, a.cwdStr, some w.exitCode, "default",
              endsWithTruncated capped, none⟩] else []
          (.ok ⟨"execute", capped, false⟩, ⟨[req], audits, timerSet, some w.durationMs⟩)

/-! ## Script sandbox globals (`src/tools/run_js.ts`, `runJsTool` setup)

The QuickJS global object is modelled as a table `String → JsVal`; only the
shape of values matters here (undefined, a string, the console object, the
injected fetch function, or an arbitrary inherited host handle). -/

inductive JsVal where
  | undef
  | str (s : String)
  | consoleObj
  | fetchFn
  | hostVal (n : Nat)
deriving DecidableEq

/-- Host facts `installFetch` checks before injecting anything: whether
`globalThis.fetch` exists and whether the context exposes
`newPromiseCapability`. -/
structure JsHost where
  hostFetchAvailable : Bool
  hasPromiseCapability : Bool
deriving DecidableEq

/-- `context.setProp(context.global, k, v)`. -/
def setProp (g : String → JsVal) (k : String) (v : JsVal) : String → JsVal :=
  fun n => if n = k then v else g n

/-- `installFetch` from `src/tools/run_js.ts`: injects the host-backed
fetch function only when the host has a global `fetch` and the context has
`newPromiseCapability`; otherwise it returns `null` without touching the
global scope. -/
def installFetch (host : JsHost) (g : String → JsVal) : String → JsVal :=
  if host.hostFetchAvailable && host.hasPromiseCapability then setProp g "fetch" .fetchFn
  else g

/-- The global-scope preparation `runJsTool` performs before `evalCode`:
strip `process`, `require`, `fs` and `fetch`; set the informational
`SANDBOX_ROOT` string; optionally install the fetch bridge (only when
`allowNetwork`); attach the capturing `console`. -/
def setupSandboxGlobals (host : JsHost) (allowNetwork : Bool) (sandboxRoot : String)
    (g0 : String → JsVal) : String → JsVal :=
  let g1 := setProp g0 "process" .undef
  let g2 := setProp g1 "require" .undef
  let g3 := setProp g2 "fs" .undef
  let g4 := setProp g3 "fetch" .undef
  let g5 := setProp g4 "SANDBOX_ROOT" (.str sandboxRoot)
  let g6 := if allowNetwork then installFetch host g5 else g5
  setProp g6 "console" .consoleObj

/-! ## Batch patch application (`src/tools/apply_patch.ts`, `applyPatchTool`)

The filesystem is a table `String → Option String` from (workspace-
relative) paths to file text; the third-party `applyPatch` collaborator is
an oracle `applyFn` returning `none` where the library returns `false`;
`inside` is the verdict of the boundary guard on each path. -/

structure PatchEntry where
  path : String
  patch : String
deriving DecidableEq

structure PatchOut where
  output : String
  error : Bool
deriving DecidableEq

/-- The in-memory pass of the batch loop: confine the path, read the
current text, apply the patch.  `.error` models a thrown error (guard
violation or read failure), `.ok (.inl msg)` the returned patch-conflict
failure result, `.ok (.inr results)` the accumulated `{abs, next}` write
intents. -/
def applyPatchLoop (applyFn : String → String → Option String)
    (fs0 : String → Option String) (inside : String → Bool) :
    List PatchEntry → Except String (Sum String (List (String × String)))
  | [] => .ok (.inr [])
  | e :: rest =>
    if !(inside e.path) then .error "Path outside workspace"
    else
      match fs0 e.path with
      | none => .error "ENOENT"
      | some current =>
        match applyFn current e.patch with
        | none => .ok (.inl ("Patch could not be applied to " ++ e.path))
        | some next =>
          match applyPatchLoop applyFn fs0 inside rest with
          | .error m => .error m
          | .ok (.inl m) => .ok (.inl m)
          | .ok (.inr rs) => .ok (.inr ((e.path, next) :: rs))

/-- The write loop over the collected results, in order. -/
def writeAll : List (String × String) → (String → Option String) → (String → Option String)
  | [], f => f
  | (p, c) :: rest, f => writeAll rest (fun n => if n = p then some c else f n)

/-- The batch branch of `applyPatchTool` (`patches` is the already
filtered entry list; an empty list is the thrown validation error).  All
patches are read and applied in memory first; only when every one has
applied, and not in a dry run, are the files written. -/
def applyPatchTool (applyFn : String → String → Option String)
    (fs0 : String → Option String) (inside : String → Bool)
    (patches : List PatchEntry) (dryRun : Bool) :
    Except String PatchOut × (String → Option String) :=
  if patches = [] then
    (.error "\x27patches\x27 must be an array of \x7bpath, patch\x7d", fs0)
  else
    match applyPatchLoop applyFn fs0 inside patches with
    | .error m => (.error m, fs0)
    | .ok (.inl msg) => (.ok ⟨msg, true⟩, fs0)
    | .ok (.inr results) =>
      if dryRun then
        (.ok ⟨"Dry-run OK for " ++ toString results.length ++ " file(s)", false⟩, fs0)
      else
        (.ok ⟨"Patched " ++ toString results.length ++ " file(s)", false⟩, writeAll results fs0)

/-! ## Search pattern matcher (`src/tools/shared.ts`, `buildMatcher`,
`escapeRegex`)

Patterns and lines are handled as character lists.  `RegExp.test` is
modelled for the fragment the settled inputs stay in: token sequences of
literal characters, backslash escapes and the `.` wildcard, with the `i`
flag as per-character lowercasing (exact for ASCII); word-boundary
anchors (`wordMatch = true`) are outside the fragment and not modelled. -/

/-- The character class the regex literal `/[.*+?^$\x7b\x7d()|[\\]\\]/g` in
`escapeRegex` actually denotes: the class is terminated by the first
unescaped `]`, so it holds exactly `. * + ? ^ $ \x7b \x7d ( ) | [ \\` and
the remainder `\\]` of the pattern then requires a literal backslash and a
literal `]` right after the class character. -/
def classChars : List Char := ".*+?^$\x7b\x7d()|[\\".data

/-- `input.replace(<the regex above>, "\\$&")` as it actually parses: scan
left to right; only a class character immediately followed by the two
characters `\]` is a match, and the whole three-character match gets one
backslash prefixed.  A lone metacharacter such as `.` is NOT escaped. -/
def escapeRegex : List Char → List Char
  | c :: '\\' :: ']' :: rest2 =>
    if classChars.contains c then '\\' :: c :: '\\' :: ']' :: escapeRegex rest2
    else c :: '\\' :: ']' :: escapeRegex rest2
  | c :: rest => c :: escapeRegex rest
  | [] => []

/-- A token of the modelled regex fragment. -/
inductive RTok where
  | lit (c : Char)
  | anyc
deriving DecidableEq

/-- Lex a regex source inside the fragment: `\c` is the literal `c`, `.`
is the wildcard, anything else a literal. -/
def lexRegex : List Char → List RTok
  | [] => []
  | '\\' :: c :: rest => .lit c :: lexRegex rest
  | '\\' :: [] => []
  | '.' :: rest => .anyc :: lexRegex rest
  | c :: rest => .lit c :: lexRegex rest

/-- JavaScript line terminators, which `.` does not match. -/
def isLineTerm (c : Char) : Bool :=
  c = '\n' || c = '\r' || c = Char.ofNat 8232 || c = Char.ofNat 8233

def tokMatches (ci : Bool) : RTok → Char → Bool
  | .lit c, x => if ci then c.toLower = x.toLower else c = x
  | .anyc, x => !(isLineTerm x)

def toksMatchAt (ci : Bool) : List RTok → List Char → Bool
  | [], _ => true
  | _ :: _, [] => false
  | t :: ts, x :: xs => tokMatches ci t x && toksMatchAt ci ts xs

/-- `re.test(line)`: the token sequence matches starting at some position. -/
def regexTest (ci : Bool) (toks : List RTok) (line : List Char) : Bool :=
  line.tails.any (fun suf => toksMatchAt ci toks suf)

structure MatcherOpts where
  pattern : String
  isRegex : Bool
  caseSensitive : Bool
  smartCase : Bool
  fixedString : Bool
  wordMatch : Bool

/-- `buildMatcher` from `src/tools/shared.ts` (for sources inside the
modelled regex fragment, i.e. `wordMatch = false`): smart-case promotion,
then either the verbatim pattern (regex mode) or the `escapeRegex`-escaped
pattern (fixed-string mode), tested per line. -/
def buildMatcher (o : MatcherOpts) : String → Bool :=
  let caseSensitive :=
    if !o.caseSensitive && o.smartCase && o.pattern.data.any (fun c => 'A' ≤ c && c ≤ 'Z')
    then true else o.caseSensitive
  let ci := !caseSensitive
  let source :=
    if o.isRegex then o.pattern.data
    else if o.fixedString || o.wordMatch then escapeRegex o.pattern.data
    else o.pattern.data
  fun line => regexTest ci (lexRegex source) line.data

/-- The specification-side predicate of C7: the line contains the pattern
as a literal substring. -/
def containsLit (line pat : String) : Bool :=
  line.data.tails.any (fun suf => pat.data.isPrefixOf suf)

/-! ## Search result capping (`grepSearchTool`, per-file match loop and
traversal stop)

Files are `(relative path, lines)` pairs, already past the glob / path /
hidden / size / binary filters (those filters only remove files and cannot
add output lines).  The matcher is the function `buildMatcher` returned.
-/

structure FileRec where
  lines : List String
  matchCount : Nat
  lastLineEmitted : Option Nat
deriving DecidableEq

structure GrepOpts where
  beforeContext : Nat
  afterContext : Nat
  maxResults : Nat
  withContextSeparators : Bool
  withContextLabels : Bool
deriving DecidableEq

/-- One emitted output line
`"rel:(ctxIdx+1): [M: |C: ]line.trim()"`. -/
def grepEntry (withLabels : Bool) (relp : String) (matchIdx ctxIdx : Nat)
    (text : String) : String :=
  let tag := if withLabels then (if ctxIdx = matchIdx then "M: " else "C: ") else ""
  relp ++ ":" ++ toString (ctxIdx + 1) ++ ": " ++ tag ++ String.mk (trimChars text.data)

/-- The window-emission loop for one matching line: indices
`[start, endIdx)`, skipping indices at or below `lastLineEmitted`.  No
`maxResults` check happens inside this loop. -/
def emitWindow (o : GrepOpts) (relp : String) (lines : List String) (matchIdx : Nat)
    (last : Option Nat) (start endIdx : Nat) : List String :=
  (List.range' start (endIdx - start)).filterMap (fun ctxIdx =>
    if (match last with | some l => decide (ctxIdx ≤ l) | none => false) = true then none
    else some (grepEntry o.withContextLabels relp matchIdx ctxIdx (lines.getD ctxIdx "")))

/-- The per-file line loop of `grepSearchTool`: `rem` is the tail of
`lines` from index `idx`; the cap check `matches.length >= maxResults`
runs once per scanned line, before the line is tested, and never inside
the window emission. -/
def grepFileLoop (matcher : String → Bool) (o : GrepOpts) (relp : String)
    (lines : List String) :
    List String → Nat → List String → FileRec → List String × FileRec
  | [], _, ms, fr => (ms, fr)
  | line :: rem, idx, ms, fr =>
    if o.maxResults ≤ ms.length then (ms, fr)
    else if matcher line then
      let fr1 : FileRec := { fr with matchCount := fr.matchCount + 1 }
      let start := idx - o.beforeContext
      let endIdx := min lines.length (idx + o.afterContext + 1)
      let needsSep := o.withContextSeparators &&
        (match fr1.lastLineEmitted with | some l => decide (l < start) | none => false)
      let ms1 := if needsSep then ms ++ ["--"] else ms
      let fr2 : FileRec := if needsSep then { fr1 with lines := fr1.lines ++ ["--"] } else fr1
      let win := emitWindow o relp lines idx fr2.lastLineEmitted start endIdx
      grepFileLoop matcher o relp lines rem (idx + 1) (ms1 ++ win)
        { fr2 with lines := fr2.lines ++ win, lastLineEmitted := some (endIdx - 1) }
    else
      grepFileLoop matcher o relp lines rem (idx + 1) ms fr

/-- The traversal driver: `walk`'s stop callback and the visit's own
`limitReached` check both test the cap before a file is scanned; each
visited file gets a fresh per-file record (relative paths in one walk are
distinct). -/
def grepFiles (matcher : String → Bool) (o : GrepOpts) :
    List (String × List String) → List String → List String
  | [], ms => ms
  | (relp, lines) :: rest, ms =>
    if o.maxResults ≤ ms.length then ms
    else
      grepFiles matcher o rest (grepFileLoop matcher o relp lines lines 0 ms ⟨[], 0, none⟩).1

/-- The flat (no headings) output list of a search over the model files. -/
def grepSearchFlat (matcher : String → Bool) (o : GrepOpts)
    (files : List (String × List String)) : List String :=
  grepFiles matcher o files []

end Steward

namespace Steward

/-! ### Theorems for C1 and C2 -/

theorem relativeComps_head_of_not_isPre (from_ to_ : List String)
    (h : from_.isPrefixOf to_ = false) :
    relHeadDotDot (relativeComps from_ to_) = true := by
  induction from_ generalizing to_ with
  | nil => simp [List.isPrefixOf] at h
  | cons f fs ih =>
    cases to_ with
    | nil =>
      simp only [relativeComps, relHeadDotDot, List.replicate_succ]
      decide
    | cons t ts =>
      by_cases hft : f = t
      · subst hft
        simp [List.isPrefixOf_cons₂_self] at h
        simp [relativeComps, ih ts h]
      · simp only [relativeComps, hft, if_false, List.replicate_succ, List.cons_append,
          relHeadDotDot]
        decide

/-- C1: for every requested path whose resolved target (after symlink
resolution, including the first-existing-ancestor join for non-existent
paths) lies outside the real workspace root, `ensureInsideWorkspace`
raises the outside-workspace error, for any `mustExist` flag. -/
theorem ensureInsideWorkspace_rejects_outside (fs : FS)
    (abs rootReal target : List String) (mustExist : Bool)
    (hroot : fs.realpath fs.cwd = some rootReal)
    (hres : resolveTarget fs abs = some target)
    (hout : rootReal.isPrefixOf target = false) :
    ensureInsideWorkspace fs abs mustExist = .error "Path outside workspace" := by
  unfold ensureInsideWorkspace
  rw [hroot, hres]
  simp [relativeComps_head_of_not_isPre rootReal target hout]

/-- Witness for C1: a workspace `/w` containing a symlink `/w/link` whose
link file is inside the workspace but whose target resolves to the outside
path `/out/secret`; the guard rejects it. -/
theorem ensureInsideWorkspace_rejects_outside_witness :
    (let fs : FS :=
      { cwd := ["w"]
        realpath := fun p =>
          if p = ["w"] then some ["w"]
          else if p = ["w", "link"] then some ["out", "secret"]
          else none
        access := fun p => p = ["w"] || p = ["w", "link"] };
    fs.realpath fs.cwd = some ["w"] ∧
    resolveTarget fs ["w", "link"] = some ["out", "secret"] ∧
    List.isPrefixOf ["w"] ["out", "secret"] = false ∧
    ensureInsideWorkspace fs ["w", "link"] true = .error "Path outside workspace") := by
  refine ⟨by decide, by decide, by decide, ?_⟩
  exact ensureInsideWorkspace_rejects_outside _ ["w", "link"] ["w"] ["out", "secret"] true
    (by decide) (by decide) (by decide)

theorem walkUpRev_finds (fs : FS) (ancestor ancestorReal : List String)
    (hanc : fs.realpath ancestor = some ancestorReal) :
    ∀ (sr acc : List String), sr ≠ [] →
    (∀ t, t <:+ sr → t ≠ sr → t ≠ [] → fs.realpath (ancestor ++ t.reverse) = none) →
    walkUpRev fs (sr ++ ancestor.reverse) acc = some (ancestorReal ++ sr.reverse ++ acc) := by
  intro sr
  induction sr with
  | nil => intro acc h _; exact absurd rfl h
  | cons b sr' ih =>
    intro acc _ hmid
    cases sr' with
    | nil =>
      show walkUpRev fs (b :: ancestor.reverse) acc = _
      unfold walkUpRev
      rw [List.reverse_reverse, hanc]
      simp
    | cons c sr'' =>
      have hne : c :: sr'' ≠ ([] : List String) := by simp
      have hlook : fs.realpath (ancestor ++ (c :: sr'').reverse) = none := by
        refine hmid (c :: sr'') (List.suffix_cons b (c :: sr'')) ?_ hne
        intro hEq
        have := congrArg List.length hEq
        simp at this
      show walkUpRev fs (b :: ((c :: sr'') ++ ancestor.reverse)) acc = _
      unfold walkUpRev
      rw [List.reverse_append, List.reverse_reverse, hlook]
      have htails : ∀ t, t <:+ c :: sr'' → t ≠ c :: sr'' → t ≠ [] →
          fs.realpath (ancestor ++ t.reverse) = none := by
        intro t ht htne htnil
        refine hmid t (ht.trans (List.suffix_cons b (c :: sr''))) ?_ htnil
        intro hEq
        have hlen := ht.length_le
        rw [hEq] at hlen
        simp at hlen
      rw [ih (b :: acc) hne htails]
      simp

/-- C2 as amended: for a non-existent path `ancestor ++ newComps` whose
first existing ancestor is `ancestor` (real path `ancestorReal`),
`ensureInsideWorkspace(·, mustExist := false)` succeeds and the real path
it computes is `ancestorReal ++ newComps` — provided the relative offset
of that joined path from the workspace root does not begin with the
two-character string `".."`. -/
theorem ensureInsideWorkspace_allows_new_path (fs : FS)
    (rootReal ancestor ancestorReal newComps : List String)
    (hroot : fs.realpath fs.cwd = some rootReal)
    (hne : newComps ≠ [])
    (habs : fs.realpath (ancestor ++ newComps) = none)
    (hmid : ∀ p, p <+: newComps → p ≠ [] → p ≠ newComps →
      fs.realpath (ancestor ++ p) = none)
    (hanc : fs.realpath ancestor = some ancestorReal)
    (hrel : relHeadDotDot (relativeComps rootReal (ancestorReal ++ newComps)) = false) :
    resolveTarget fs (ancestor ++ newComps) = some (ancestorReal ++ newComps) ∧
    ensureInsideWorkspace fs (ancestor ++ newComps) false = .ok () := by
  have hres : resolveTarget fs (ancestor ++ newComps) = some (ancestorReal ++ newComps) := by
    unfold resolveTarget
    rw [habs, List.reverse_append]
    have h2 := walkUpRev_finds fs ancestor ancestorReal hanc newComps.reverse []
      (by simpa using hne) ?_
    · rw [h2]; simp
    · intro t ht htne htnil
      have hp : t.reverse <+: newComps := by
        obtain ⟨s, hs⟩ := ht
        exact ⟨s.reverse, by rw [← List.reverse_append, hs, List.reverse_reverse]⟩
      refine hmid t.reverse hp (by simpa using htnil) ?_
      intro hEq
      apply htne
      rw [← List.reverse_reverse t, hEq]
  refine ⟨hres, ?_⟩
  unfold ensureInsideWorkspace
  rw [hroot, hres]
  simp [hrel]

/-- Counterexample for C2 as stated: the workspace root `/w` exists and is
its own real path, `/w/..x` does not exist and lies directly under the
existing safe ancestor `/w`, yet `ensureInsideWorkspace("/w/..x", false)`
throws the outside-workspace error, because the computed relative path
`"..x"` begins with the string `".."`.  The claim's "regardless of the
names of the suffix components" is therefore false. -/
theorem ensureInsideWorkspace_new_path_counterexample :
    (let fs : FS := ⟨["w"], fun p => if p = ["w"] then some ["w"] else none, fun _ => false⟩;
    fs.realpath fs.cwd = some ["w"] ∧
    fs.realpath ["w", "..x"] = none ∧
    fs.access ["w", "..x"] = false ∧
    ensureInsideWorkspace fs ["w", "..x"] false = .error "Path outside workspace") := by
  refine ⟨by decide, by decide, by decide, by decide⟩

/-- Witness for C2's amended theorem: creating the deeply nested
non-existent path `/w/sub/new.txt` under the existing workspace root `/w`
is allowed, and the computed real path is the joined one. -/
theorem ensureInsideWorkspace_allows_new_path_witness :
    (let fs : FS := ⟨["w"], fun p => if p = ["w"] then some ["w"] else none, fun _ => false⟩;
    resolveTarget fs ["w", "sub", "new.txt"] = some ["w", "sub", "new.txt"] ∧
    ensureInsideWorkspace fs ["w", "sub", "new.txt"] false = .ok ()) := by
  exact ensureInsideWorkspace_allows_new_path
    ⟨["w"], fun p => if p = ["w"] then some ["w"] else none, fun _ => false⟩
    ["w"] ["w"] ["w"] ["sub", "new.txt"]
    (by decide) (by decide) (by decide)
    (by
      intro p hp h1 h2
      obtain ⟨t, ht⟩ := hp
      rcases p with _ | ⟨x, _ | ⟨y, rest⟩⟩
      · exact absurd rfl h1
      · simp only [List.cons_append, List.nil_append, List.cons.injEq] at ht
        obtain ⟨hx, -⟩ := ht
        subst hx
        decide
      · simp only [List.cons_append, List.cons.injEq] at ht
        obtain ⟨hx, hy, hrt⟩ := ht
        obtain ⟨hr, -⟩ := List.append_eq_nil.mp hrt.symm.symm
        · exact absurd (by subst hx; subst hy; subst hr; rfl) h2)
    (by decide) (by decide)

end Steward

namespace Steward

theorem utf8Decode_two (b b1 : Nat) (rest : List Nat) (hb : 194 ≤ b) (hb' : b < 224)
    (h1 : isCont b1 = true) :
    utf8Decode (b :: b1 :: rest) = ((b - 192) * 64 + (b1 - 128)) :: utf8Decode rest := by
  rw [utf8Decode.eq_def]
  dsimp only
  rw [if_neg (by omega), if_neg (by simp; omega), if_pos (by omega), if_pos h1]

theorem utf8Decode_three (b b1 b2 : Nat) (rest : List Nat) (hb : 224 ≤ b) (hb' : b < 240)
    (hlo : contLo b ≤ b1) (hhi : b1 < contHi b) (h2 : isCont b2 = true) :
    utf8Decode (b :: b1 :: b2 :: rest) =
      ((b - 224) * 4096 + (b1 - 128) * 64 + (b2 - 128)) :: utf8Decode rest := by
  rw [utf8Decode.eq_def]
  dsimp only
  rw [if_neg (by omega), if_neg (by simp; omega), if_neg (by omega), if_pos (by omega),
    if_pos (by simp only [Bool.and_eq_true, decide_eq_true_eq]; exact ⟨hlo, hhi⟩), if_pos h2]

theorem utf8Decode_four (b b1 b2 b3 : Nat) (rest : List Nat) (hb : 240 ≤ b) (hb' : b ≤ 244)
    (hlo : contLo b ≤ b1) (hhi : b1 < contHi b) (h2 : isCont b2 = true) (h3 : isCont b3 = true) :
    utf8Decode (b :: b1 :: b2 :: b3 :: rest) =
      ((b - 240) * 262144 + (b1 - 128) * 4096 + (b2 - 128) * 64 + (b3 - 128)) ::
        utf8Decode rest := by
  rw [utf8Decode.eq_def]
  dsimp only
  rw [if_neg (by omega), if_neg (by simp; omega), if_neg (by omega), if_neg (by omega),
    if_pos (by simp only [Bool.and_eq_true, decide_eq_true_eq]; exact ⟨hlo, hhi⟩),
    if_pos h2, if_pos h3]

theorem utf8Decode_two_tail (b : Nat) (hb : 194 ≤ b) (hb' : b < 224) :
    utf8Decode [b] = [65533] := by
  rw [utf8Decode.eq_def]
  dsimp only
  rw [if_neg (by omega), if_neg (by simp; omega), if_pos (by omega)]

theorem utf8Decode_three_tail1 (b : Nat) (hb : 224 ≤ b) (hb' : b < 240) :
    utf8Decode [b] = [65533] := by
  rw [utf8Decode.eq_def]
  dsimp only
  rw [if_neg (by omega), if_neg (by simp; omega), if_neg (by omega), if_pos (by omega)]

theorem utf8Decode_three_tail2 (b b1 : Nat) (hb : 224 ≤ b) (hb' : b < 240)
    (hlo : contLo b ≤ b1) (hhi : b1 < contHi b) :
    utf8Decode [b, b1] = [65533] := by
  rw [utf8Decode.eq_def]
  dsimp only
  rw [if_neg (by omega), if_neg (by simp; omega), if_neg (by omega), if_pos (by omega),
    if_pos (by simp only [Bool.and_eq_true, decide_eq_true_eq]; exact ⟨hlo, hhi⟩)]

theorem utf8Decode_four_tail1 (b : Nat) (hb : 240 ≤ b) (hb' : b ≤ 244) :
    utf8Decode [b] = [65533] := by
  rw [utf8Decode.eq_def]
  dsimp only
  rw [if_neg (by omega), if_neg (by simp; omega), if_neg (by omega), if_neg (by omega)]

theorem utf8Decode_four_tail2 (b b1 : Nat) (hb : 240 ≤ b) (hb' : b ≤ 244)
    (hlo : contLo b ≤ b1) (hhi : b1 < contHi b) :
    utf8Decode [b, b1] = [65533] := by
  rw [utf8Decode.eq_def]
  dsimp only
  rw [if_neg (by omega), if_neg (by simp; omega), if_neg (by omega), if_neg (by omega),
    if_pos (by simp only [Bool.and_eq_true, decide_eq_true_eq]; exact ⟨hlo, hhi⟩)]

theorem utf8Decode_four_tail3 (b b1 b2 : Nat) (hb : 240 ≤ b) (hb' : b ≤ 244)
    (hlo : contLo b ≤ b1) (hhi : b1 < contHi b) (h2 : isCont b2 = true) :
    utf8Decode [b, b1, b2] = [65533] := by
  rw [utf8Decode.eq_def]
  dsimp only
  rw [if_neg (by omega), if_neg (by simp; omega), if_neg (by omega), if_neg (by omega),
    if_pos (by simp only [Bool.and_eq_true, decide_eq_true_eq]; exact ⟨hlo, hhi⟩), if_pos h2]

theorem isCont_of_eq (x : Nat) (h : x < 64) : isCont (128 + x) = true := by
  simp only [isCont, Bool.and_eq_true, decide_eq_true_eq]
  omega

theorem utf8Decode_encChar (c : Nat) (h : wfScalar c = true) (rest : List Nat) :
    utf8Decode (utf8EncodeChar c ++ rest) = c :: utf8Decode rest := by
  have hws : c < 1114112 ∧ (c < 55296 ∨ 57344 ≤ c) := by
    simpa [wfScalar, Bool.and_eq_true, decide_eq_true_eq] using h
  obtain ⟨hmax, hsur⟩ := hws
  unfold utf8EncodeChar
  by_cases h1 : c < 128
  · rw [if_pos h1]
    simp only [List.cons_append, List.nil_append]
    rw [utf8Decode.eq_def]
    dsimp only
    rw [if_pos h1]
  · rw [if_neg h1]
    by_cases h2 : c < 2048
    · rw [if_pos h2]
      simp only [List.cons_append, List.nil_append]
      rw [utf8Decode_two _ _ rest (by omega) (by omega) (isCont_of_eq _ (by omega))]
      simp only [List.cons.injEq, and_true]
      omega
    · rw [if_neg h2]
      by_cases h3 : c < 65536
      · rw [if_pos h3]
        simp only [List.cons_append, List.nil_append]
        have hlo : contLo (224 + c / 4096) ≤ 128 + c / 64 % 64 := by
          simp only [contLo]
          split_ifs <;> omega
        have hhi : 128 + c / 64 % 64 < contHi (224 + c / 4096) := by
          simp only [contHi]
          split_ifs <;> omega
        rw [utf8Decode_three _ _ _ rest (by omega) (by omega) hlo hhi
          (isCont_of_eq _ (by omega))]
        simp only [List.cons.injEq, and_true]
        omega
      · rw [if_neg h3]
        simp only [List.cons_append, List.nil_append]
        have hlo : contLo (240 + c / 262144) ≤ 128 + c / 4096 % 64 := by
          simp only [contLo]
          split_ifs <;> omega
        have hhi : 128 + c / 4096 % 64 < contHi (240 + c / 262144) := by
          simp only [contHi]
          split_ifs <;> omega
        rw [utf8Decode_four _ _ _ _ rest (by omega) (by omega) hlo hhi
          (isCont_of_eq _ (by omega)) (isCont_of_eq _ (by omega))]
        simp only [List.cons.injEq, and_true]
        omega


theorem utf8Encode_append (a b : List Nat) :
    utf8Encode (a ++ b) = utf8Encode a ++ utf8Encode b := by
  induction a with
  | nil => simp [utf8Encode]
  | cons c a ih => simp [utf8Encode, ih]

theorem utf8EncodeChar_length_le (c : Nat) : (utf8EncodeChar c).length ≤ 4 := by
  unfold utf8EncodeChar
  split_ifs <;> simp

theorem utf8EncodeChar_length_pos (c : Nat) : 0 < (utf8EncodeChar c).length := by
  unfold utf8EncodeChar
  split_ifs <;> simp

theorem utf8Decode_encode (s : List Nat) (rest : List Nat) (h : wfScalars s = true) :
    utf8Decode (utf8Encode s ++ rest) = s ++ utf8Decode rest := by
  induction s with
  | nil => simp [utf8Encode]
  | cons c s ih =>
    simp only [wfScalars, List.all_cons, Bool.and_eq_true] at h
    simp only [utf8Encode, List.append_assoc]
    rw [utf8Decode_encChar c h.1]
    have := ih (by simpa [wfScalars] using h.2)
    rw [this]
    simp

theorem utf8Encode_take_split (s : List Nat) (N : Nat)
    (hN : N < (utf8Encode s).length) :
    ∃ s₁ c s₂ k, s = s₁ ++ c :: s₂ ∧ (utf8Encode s₁).length + k = N ∧
      k < (utf8EncodeChar c).length ∧
      (utf8Encode s).take N = utf8Encode s₁ ++ (utf8EncodeChar c).take k := by
  induction s generalizing N with
  | nil => simp [utf8Encode] at hN
  | cons c s ih =>
    by_cases hlt : N < (utf8EncodeChar c).length
    · refine ⟨[], c, s, N, by simp, by simp [utf8Encode], hlt, ?_⟩
      simp only [utf8Encode, List.nil_append]
      rw [List.take_append_of_le_length (by omega)]
    · push_neg at hlt
      have hN' : N - (utf8EncodeChar c).length < (utf8Encode s).length := by
        simp only [utf8Encode, List.length_append] at hN
        omega
      obtain ⟨s₁, c', s₂, k, hs, hlen, hk, htake⟩ := ih (N - (utf8EncodeChar c).length) hN'
      refine ⟨c :: s₁, c', s₂, k, by simp [hs], ?_, hk, ?_⟩
      · simp only [utf8Encode, List.length_append]
        omega
      · show (utf8EncodeChar c ++ utf8Encode s).take N = utf8Encode (c :: s₁) ++ _
        rw [List.take_append_eq_append_take, List.take_of_length_le hlt, htake]
        simp [utf8Encode]

theorem isPre_refl (l : List Nat) : l.isPrefixOf l = true := by
  induction l with
  | nil => rfl
  | cons c l ih => simp [List.isPrefixOf, ih]

theorem isPre_append (l t : List Nat) : l.isPrefixOf (l ++ t) = true := by
  induction l with
  | nil => simp [List.isPrefixOf]
  | cons c l ih => simp [List.isPrefixOf, ih]


theorem utf8Decode_encChar_take (c : Nat) (h : wfScalar c = true) (k : Nat)
    (hk1 : 1 ≤ k) (hk2 : k < (utf8EncodeChar c).length) :
    utf8Decode ((utf8EncodeChar c).take k) = [65533] := by
  have hws : c < 1114112 ∧ (c < 55296 ∨ 57344 ≤ c) := by
    simpa [wfScalar, Bool.and_eq_true, decide_eq_true_eq] using h
  obtain ⟨hmax, hsur⟩ := hws
  unfold utf8EncodeChar at hk2 ⊢
  by_cases h1 : c < 128
  · rw [if_pos h1] at hk2
    simp at hk2
    omega
  · rw [if_neg h1] at hk2 ⊢
    by_cases h2 : c < 2048
    · rw [if_pos h2] at hk2 ⊢
      have hke : k = 1 := by simp at hk2; omega
      subst hke
      exact utf8Decode_two_tail _ (by omega) (by omega)
    · rw [if_neg h2] at hk2 ⊢
      by_cases h3 : c < 65536
      · rw [if_pos h3] at hk2 ⊢
        have hklt : k < 3 := by simpa using hk2
        have hlo : contLo (224 + c / 4096) ≤ 128 + c / 64 % 64 := by
          simp only [contLo]
          split_ifs <;> omega
        have hhi : 128 + c / 64 % 64 < contHi (224 + c / 4096) := by
          simp only [contHi]
          split_ifs <;> omega
        interval_cases k
        · exact utf8Decode_three_tail1 _ (by omega) (by omega)
        · exact utf8Decode_three_tail2 _ _ (by omega) (by omega) hlo hhi
      · rw [if_neg h3] at hk2 ⊢
        have hklt : k < 4 := by simpa using hk2
        have hlo : contLo (240 + c / 262144) ≤ 128 + c / 4096 % 64 := by
          simp only [contLo]
          split_ifs <;> omega
        have hhi : 128 + c / 4096 % 64 < contHi (240 + c / 262144) := by
          simp only [contHi]
          split_ifs <;> omega
        interval_cases k
        · exact utf8Decode_four_tail1 _ (by omega) (by omega)
        · exact utf8Decode_four_tail2 _ _ (by omega) (by omega) hlo hhi
        · exact utf8Decode_four_tail3 _ _ _ (by omega) (by omega) hlo hhi
            (isCont_of_eq _ (by omega))

/-- C3 as amended: `truncateOutput` is idempotent; the UTF-8 byte length of
the result never exceeds `N + 2` plus the marker's byte length (not `N`
plus the marker: up to two extra bytes appear when the cut splits a
multi-byte character, whose one-to-three leftover bytes `TextDecoder`
replaces by the three-byte U+FFFD); and the text before the marker is a
well-formed prefix of the input followed by at most one replacement
character (exactly a prefix when the cut falls on a character boundary). -/
theorem truncateOutput_utf8_props (s : List Nat) (N : Nat) (h : wfScalars s = true) :
    truncateOutput (truncateOutput s N) N = truncateOutput s N ∧
    (utf8Encode (truncateOutput s N)).length ≤ N + 2 + (utf8Encode truncationMarker).length ∧
    ∃ s₁ rep, s₁.isPrefixOf s = true ∧ (rep = [] ∨ rep = [65533]) ∧
      (truncateOutput s N = s ∨ truncateOutput s N = s₁ ++ rep ++ truncationMarker) := by
  have hmark : utf8Encode truncationMarker = truncationMarker := by decide
  have hmlen : truncationMarker.length = 12 := by decide
  by_cases hfit : (utf8Encode s).length ≤ N
  · have ht : truncateOutput s N = s := by simp [truncateOutput, hfit]
    rw [ht]
    refine ⟨ht, ?_, s, [], isPre_refl s, Or.inl rfl, Or.inl rfl⟩
    rw [hmark, hmlen]
    omega
  · push_neg at hfit
    have hnot : ¬ ((utf8Encode s).length ≤ N) := by omega
    obtain ⟨s₁, c, s₂, k, hs, hlen, hk, htake⟩ := utf8Encode_take_split s N hfit
    have hwfboth : wfScalars s₁ = true ∧ wfScalar c = true := by
      rw [hs] at h
      simp only [wfScalars, List.all_append, List.all_cons, Bool.and_eq_true] at h
      exact ⟨h.1, h.2.1⟩
    obtain ⟨hwfs₁, hwfc⟩ := hwfboth
    have hpre : s₁.isPrefixOf s = true := by
      rw [hs]
      exact isPre_append s₁ (c :: s₂)
    have ht : truncateOutput s N = utf8Decode ((utf8Encode s).take N) ++ truncationMarker := by
      simp [truncateOutput, hnot]
    by_cases hk0 : k = 0
    · subst hk0
      have hNs : (utf8Encode s₁).length = N := by omega
      have hdec : utf8Decode ((utf8Encode s).take N) = s₁ := by
        rw [htake]
        simp only [List.take_zero, List.append_nil]
        simpa [utf8Decode] using utf8Decode_encode s₁ [] hwfs₁
      have hout : truncateOutput s N = s₁ ++ truncationMarker := by rw [ht, hdec]
      rw [hout]
      have hencout : utf8Encode (s₁ ++ truncationMarker) = utf8Encode s₁ ++ truncationMarker := by
        rw [utf8Encode_append, hmark]
      refine ⟨?_, ?_, s₁, [], hpre, Or.inl rfl, Or.inr (by simp)⟩
      · simp only [truncateOutput, hencout]
        rw [if_neg (by simp [List.length_append, hNs, hmlen])]
        rw [← hNs, List.take_left]
        rw [show utf8Decode (utf8Encode s₁) = s₁ by
          simpa [utf8Decode] using utf8Decode_encode s₁ [] hwfs₁]
      · rw [hencout, List.length_append, hmark, hmlen]
        omega
    · have hk1 : 1 ≤ k := by omega
      have hk3 : k ≤ 3 := by
        have := utf8EncodeChar_length_le c
        omega
      have hdecp := utf8Decode_encChar_take c hwfc k hk1 hk
      have hdec : utf8Decode ((utf8Encode s).take N) = s₁ ++ [65533] := by
        rw [htake, utf8Decode_encode s₁ _ hwfs₁, hdecp]
      have hout : truncateOutput s N = s₁ ++ [65533] ++ truncationMarker := by rw [ht, hdec]
      have hfffd : utf8EncodeChar 65533 = [239, 191, 189] := by decide
      have hencout : utf8Encode (s₁ ++ [65533] ++ truncationMarker) =
          utf8Encode s₁ ++ ([239, 191, 189] ++ truncationMarker) := by
        rw [utf8Encode_append, utf8Encode_append, hmark]
        simp [utf8Encode, hfffd, List.append_assoc]
      have hNs : (utf8Encode s₁).length = N - k := by omega
      rw [hout]
      refine ⟨?_, ?_, s₁, [65533], hpre, Or.inr rfl, Or.inr rfl⟩
      · simp only [truncateOutput, hencout]
        rw [if_neg (by simp [List.length_append, hNs, hmlen]; omega)]
        rw [List.take_append_eq_append_take, List.take_of_length_le (by omega)]
        have hNk : N - (utf8Encode s₁).length = k := by omega
        rw [hNk, List.take_append_of_le_length (by simp; omega)]
        rw [utf8Decode_encode s₁ _ hwfs₁]
        have hdk : utf8Decode (List.take k [239, 191, 189]) = [65533] := by
          interval_cases k <;> decide
        rw [hdk]
      · rw [hencout, List.length_append, List.length_append, hmark, hmlen]
        simp only [List.length_cons, List.length_nil]
        omega


/-- Counterexample for C3 as stated: for `s = "€"` (scalar 8364, three
UTF-8 bytes) and `N = 1`, the sliced single byte is replaced by U+FFFD, so
the result is 15 bytes long — more than `N` plus the 12-byte marker — and
the text before the marker is not a prefix of `s`. -/
theorem truncateOutput_counterexample :
    truncateOutput [8364] 1 = 65533 :: truncationMarker ∧
    (utf8Encode (truncateOutput [8364] 1)).length = 15 ∧
    ¬ ((utf8Encode (truncateOutput [8364] 1)).length ≤
        1 + (utf8Encode truncationMarker).length) ∧
    ([65533].isPrefixOf [8364]) = false := by
  refine ⟨by decide, by decide, by decide, by decide⟩

/-- Witness for C3's amended theorem at `s = [8364]`, `N = 1`. -/
theorem truncateOutput_utf8_props_witness :
    wfScalars [8364] = true ∧
    (truncateOutput (truncateOutput [8364] 1) 1 = truncateOutput [8364] 1 ∧
      (utf8Encode (truncateOutput [8364] 1)).length ≤
        1 + 2 + (utf8Encode truncationMarker).length ∧
      ∃ s₁ rep, s₁.isPrefixOf [8364] = true ∧ (rep = [] ∨ rep = [65533]) ∧
        (truncateOutput [8364] 1 = [8364] ∨
          truncateOutput [8364] 1 = s₁ ++ rep ++ truncationMarker)) :=
  ⟨by decide, truncateOutput_utf8_props [8364] 1 (by decide)⟩


/-- C4: with the enable flag not set to `"1"`, every call to the execute
tool fails with the Disabled error, spawning no process and writing
nothing (no audit append), regardless of command, args, cwd, env, timeout
or mode. -/
theorem executeTool_disabled (env : ExecEnv) (w : ExecWorld) (a : ExecArgs)
    (h : env.allowExecute ≠ some "1") :
    executeTool env w a =
      (.error "execute tool disabled; set STEWARD_ALLOW_EXECUTE=1 to enable", emptyTrace) := by
  unfold executeTool
  dsimp only
  rw [if_pos h]

/-- Witness for C4 at a concrete argument object and world. -/
theorem executeTool_disabled_witness :
    executeTool ⟨none, none, none, none, none, 32000⟩
      ⟨true, true, "", 7, [], [], 0, 5⟩
      ⟨some "pwd", [], ".", some 100, false, false, none⟩ =
      (.error "execute tool disabled; set STEWARD_ALLOW_EXECUTE=1 to enable", emptyTrace) :=
  executeTool_disabled _ _ _ (by decide)

/-- Counterexample for C5 as stated: with auditing enabled and the enable
flag set, a command rejected by the allow-list throws before the audit
write, so the audit trace is empty — the claim's "policy rejections …
append exactly one JSON line" is false. -/
theorem executeTool_policy_rejection_no_audit :
    (let env : ExecEnv := ⟨some "1", some "ls", none, none, none, 32000⟩;
     let w : ExecWorld := ⟨true, true, "", 7, [], [], 0, 5⟩;
     let a : ExecArgs := ⟨some "rm", ["-rf", "x"], ".", none, false, false, none⟩;
     (env.auditVar ≠ some "0") ∧
     executeTool env w a = (.error "command not allowed by STEWARD_EXEC_ALLOW", emptyTrace)) := by
  refine ⟨by decide, by decide⟩

/-- C5 as amended: when auditing is not disabled, every execution attempt
that passes the enable-flag, command-type, allow-list, deny-list and
workspace checks — background, streamed, buffered success, spawn failure,
or timeout abort — appends exactly one audit record carrying the command,
the argument list and the working directory; allow/deny policy rejections
throw before the audit write and append nothing. -/
theorem executeTool_audit_line (env : ExecEnv) (w : ExecWorld) (a : ExecArgs) (c : String)
    (hen : env.allowExecute = some "1")
    (hcmd : a.command = some c)
    (hallow : splitTrim env.execAllow = [] ∨ c.data ∈ splitTrim env.execAllow)
    (hdeny : c.data ∉ splitTrim env.execDeny)
    (hcwd : w.cwdInside = true)
    (haudit : env.auditVar ≠ some "0") :
    ∃ r, (executeTool env w a).2.audits = [r] ∧
      r.cmd = c ∧ r.args = a.argList ∧ r.cwd = a.cwdStr := by
  unfold executeTool
  dsimp only
  rw [if_neg (by simp [hen]), hcmd]
  dsimp only
  rw [if_neg (by rintro ⟨h1, h2⟩; rcases hallow with h | h; exact h1 h; exact h2 h)]
  rw [if_neg (by rintro ⟨h1, h2⟩; exact hdeny h2)]
  rw [if_neg (by simp [hcwd])]
  by_cases hb : a.background
  · rw [if_pos hb]
    dsimp only
    rw [if_pos haudit]
    exact ⟨_, rfl, rfl, rfl, rfl⟩
  · rw [if_neg hb]
    by_cases hs : a.stream
    · rw [if_pos hs]
      dsimp only
      rw [if_pos haudit]
      exact ⟨_, rfl, rfl, rfl, rfl⟩
    · rw [if_neg hs]
      by_cases hsp : w.spawnOk
      · rw [if_neg (by simp [hsp])]
        by_cases hto : (match (match a.timeoutMs with
            | some t => some t
            | none => env.execTimeoutMs) with
          | some t => decide (t < w.durationMs)
          | none => false) = true
        · rw [if_pos hto]
          dsimp only
          rw [if_pos haudit]
          exact ⟨_, rfl, rfl, rfl, rfl⟩
        · rw [if_neg hto]
          dsimp only
          rw [if_pos haudit]
          exact ⟨_, rfl, rfl, rfl, rfl⟩
      · rw [if_pos (by simp [hsp])]
        dsimp only
        rw [if_pos haudit]
        exact ⟨_, rfl, rfl, rfl, rfl⟩

/-- Witness for C5's amended theorem: a streamed `echo hi` run with
auditing enabled appends exactly one record. -/
theorem executeTool_audit_line_witness :
    ∃ r, (executeTool ⟨some "1", none, none, none, none, 32000⟩
      ⟨true, true, "", 7, [], [], 0, 5⟩
      ⟨some "echo", ["hi"], ".", none, false, true, none⟩).2.audits = [r] ∧
      r.cmd = "echo" ∧ r.args = ["hi"] ∧ r.cwd = "." :=
  executeTool_audit_line _ _ _ "echo" (by decide) (by decide)
    (Or.inl (by decide)) (by decide) (by decide) (by decide)

/-- Counterexample for C8 as stated: in streamed mode with a 100 ms
timeout supplied, no abort timer is set, the spawn carries no signal, and
the call waits the child's full 2000000 ms and returns its normal output —
the timeout does not apply as in buffered mode. -/
theorem executeTool_stream_timeout_counterexample :
    (let env : ExecEnv := ⟨some "1", none, none, none, some "0", 32000⟩;
     let w : ExecWorld := ⟨true, true, "", 7, [104, 105], [], 0, 2000000⟩;
     let a : ExecArgs := ⟨some "sleep", ["2000"], ".", some 100, false, true, none⟩;
     a.timeoutMs = some 100 ∧
     (executeTool env w a).2.timerSet = false ∧
     (executeTool env w a).2.spawns = [⟨["sleep", "2000"], ".", true, false⟩] ∧
     (executeTool env w a).2.elapsedMs = some 2000000 ∧
     (executeTool env w a).1 = .ok ⟨"execute", [104, 105], false⟩) := by
  refine ⟨by decide, by decide, by decide, by decide, by decide⟩

/-- C8 as amended: in streamed mode the timeout parameter (caller-supplied
or environment default) is ignored: no abort timer is set, the spawn
carries no abort signal, and the call returns only after the child's full
duration.  Timeout enforcement exists only in buffered mode. -/
theorem executeTool_stream_ignores_timeout (env : ExecEnv) (w : ExecWorld) (a : ExecArgs)
    (c : String)
    (hen : env.allowExecute = some "1")
    (hcmd : a.command = some c)
    (hallow : splitTrim env.execAllow = [] ∨ c.data ∈ splitTrim env.execAllow)
    (hdeny : c.data ∉ splitTrim env.execDeny)
    (hcwd : w.cwdInside = true)
    (hbg : a.background = false)
    (hst : a.stream = true) :
    (executeTool env w a).2.timerSet = false ∧
    (∀ req ∈ (executeTool env w a).2.spawns, req.withSignal = false) ∧
    (executeTool env w a).2.elapsedMs = some w.durationMs := by
  unfold executeTool
  dsimp only
  rw [if_neg (by simp [hen]), hcmd]
  dsimp only
  rw [if_neg (by rintro ⟨h1, h2⟩; rcases hallow with h | h; exact h1 h; exact h2 h)]
  rw [if_neg (by rintro ⟨h1, h2⟩; exact hdeny h2)]
  rw [if_neg (by simp [hcwd]), if_neg (by simp [hbg]), if_pos hst]
  refine ⟨rfl, ?_, rfl⟩
  intro req hreq
  rcases List.mem_singleton.mp hreq with rfl
  rfl

/-- Witness for C8's amended theorem: a streamed run with a 100 ms timeout
and a 50 ms child sets no timer, attaches no signal, and waits the
child's own duration. -/
theorem executeTool_stream_ignores_timeout_witness :
    (executeTool ⟨some "1", none, none, none, none, 32000⟩
      ⟨true, true, "", 9, [], [], 0, 50⟩
      ⟨some "printf", ["hello"], ".", some 100, false, true, none⟩).2.timerSet = false ∧
    (∀ req ∈ (executeTool ⟨some "1", none, none, none, none, 32000⟩
      ⟨true, true, "", 9, [], [], 0, 50⟩
      ⟨some "printf", ["hello"], ".", some 100, false, true, none⟩).2.spawns,
      req.withSignal = false) ∧
    (executeTool ⟨some "1", none, none, none, none, 32000⟩
      ⟨true, true, "", 9, [], [], 0, 50⟩
      ⟨some "printf", ["hello"], ".", some 100, false, true, none⟩).2.elapsedMs = some 50 :=
  executeTool_stream_ignores_timeout _ _ _ "printf" (by decide) (by decide)
    (Or.inl (by decide)) (by decide) (by decide) (by decide) (by decide)


/-- C6 as amended: for every inherited global table, before the caller's
code is evaluated the ambient `process`, `require` and `fs` handles are
undefined; a fetch primitive is present in the global scope iff
`allowNetwork` was requested for the call AND the host provides `fetch`
and the promise-capability API (`installFetch` injects nothing without
them, so in particular fetch is never present when `allowNetwork` is
false). -/
theorem setupSandboxGlobals_strips (host : JsHost) (allowNetwork : Bool)
    (root : String) (g0 : String → JsVal) :
    (setupSandboxGlobals host allowNetwork root g0) "process" = JsVal.undef ∧
    (setupSandboxGlobals host allowNetwork root g0) "require" = JsVal.undef ∧
    (setupSandboxGlobals host allowNetwork root g0) "fs" = JsVal.undef ∧
    ((setupSandboxGlobals host allowNetwork root g0) "fetch" ≠ JsVal.undef ↔
      (allowNetwork = true ∧ host.hostFetchAvailable = true ∧
        host.hasPromiseCapability = true)) := by
  by_cases han : allowNetwork <;>
    by_cases hf : host.hostFetchAvailable <;>
      by_cases hp : host.hasPromiseCapability <;>
        simp [setupSandboxGlobals, installFetch, setProp, han, hf, hp]

/-- Counterexample for C6 as stated: the caller requested the network
(`allowNetwork = true`) but the embedding host lacks
`newPromiseCapability`, so `installFetch` injects nothing — no
network-fetch primitive is present although it was requested, refuting the
"present if and only if allowNetwork was requested" equivalence. -/
theorem setupSandboxGlobals_fetch_counterexample :
    (setupSandboxGlobals ⟨true, false⟩ true "/sandbox" (fun _ => JsVal.hostVal 0)) "fetch" =
      JsVal.undef ∧
    ¬ ((setupSandboxGlobals ⟨true, false⟩ true "/sandbox" (fun _ => JsVal.hostVal 0)) "fetch" ≠
        JsVal.undef ↔ True) := by
  refine ⟨by decide, by decide⟩

/-- C9: batch patch application is all-or-nothing: when some patch of the
batch fails to apply to its file's current text, the tool returns a
failure (a thrown error or an error-flagged result, never a success) and
the filesystem is unchanged — zero files are written. -/
theorem applyPatchTool_allOrNothing (applyFn : String → String → Option String)
    (fs0 : String → Option String) (inside : String → Bool)
    (patches : List PatchEntry) (dryRun : Bool)
    (hfail : ∃ e ∈ patches, ∃ current,
      fs0 e.path = some current ∧ applyFn current e.patch = none) :
    (∀ out, (applyPatchTool applyFn fs0 inside patches dryRun).1 = .ok out →
      out.error = true) ∧
    (applyPatchTool applyFn fs0 inside patches dryRun).2 = fs0 := by
  have hloop : ∀ ps : List PatchEntry,
      (∃ e ∈ ps, ∃ current, fs0 e.path = some current ∧ applyFn current e.patch = none) →
      ∀ rs, applyPatchLoop applyFn fs0 inside ps ≠ .ok (.inr rs) := by
    intro ps
    induction ps with
    | nil =>
      rintro ⟨e, he, -⟩
      exact absurd he (List.not_mem_nil e)
    | cons p ps ih =>
      rintro ⟨e, he, current, hcur, happ⟩ rs hcontra
      simp only [applyPatchLoop] at hcontra
      rcases List.mem_cons.mp he with rfl | he'
      · split at hcontra
        · simp at hcontra
        · simp only [hcur] at hcontra
          simp only [happ] at hcontra
          simp at hcontra
      · split at hcontra
        · simp at hcontra
        · rcases hfs : fs0 p.path with - | current'
          · simp only [hfs] at hcontra
            simp at hcontra
          · simp only [hfs] at hcontra
            rcases happ' : applyFn current' p.patch with - | next
            · simp only [happ'] at hcontra
              simp at hcontra
            · simp only [happ'] at hcontra
              rcases hrec : applyPatchLoop applyFn fs0 inside ps with m | s
              · simp only [hrec] at hcontra
                simp at hcontra
              · rcases s with m | rs'
                · simp only [hrec] at hcontra
                  simp at hcontra
                · exact ih ⟨e, he', current, hcur, happ⟩ rs' hrec
  have hne : patches ≠ [] := by
    rintro rfl
    rcases hfail with ⟨e, he, -⟩
    exact (List.not_mem_nil e) he
  unfold applyPatchTool
  rw [if_neg hne]
  rcases hl : applyPatchLoop applyFn fs0 inside patches with m | s
  · exact ⟨fun out h => by simp at h, rfl⟩
  · rcases s with m | rs
    · exact ⟨fun out h => by cases h; rfl, rfl⟩
    · exact absurd hl (hloop patches hfail rs)

/-- Witness for C9: a one-element batch whose patch fails to apply leaves
the filesystem untouched and reports an error. -/
theorem applyPatchTool_allOrNothing_witness :
    (∀ out, (applyPatchTool (fun _ _ => none)
        (fun p => if p = "a.txt" then some "old" else none) (fun _ => true)
        [⟨"a.txt", "@@ bad @@"⟩] false).1 = .ok out → out.error = true) ∧
    (applyPatchTool (fun _ _ => none)
        (fun p => if p = "a.txt" then some "old" else none) (fun _ => true)
        [⟨"a.txt", "@@ bad @@"⟩] false).2 =
      (fun p => if p = "a.txt" then some "old" else none) :=
  applyPatchTool_allOrNothing _ _ _ _ _
    ⟨⟨"a.txt", "@@ bad @@"⟩, by simp, "old", by simp, rfl⟩

/-- C7, evaluated at the failing input: in fixed-string mode the pattern
`"."` must match a line iff the line contains a literal dot, but
`escapeRegex` leaves `.` untouched (its regex's character class is
terminated by the first unescaped `]`, so the pattern only rewrites a
metacharacter followed by the two characters `\]`), the built matcher
treats `.` as the wildcard, and the dot-free line `"x"` matches. -/
theorem buildMatcher_fixedString_dot_bug :
    escapeRegex ".".data = ".".data ∧
    buildMatcher ⟨".", false, true, false, true, false⟩ "x" = true ∧
    containsLit "x" "." = false := by
  refine ⟨by decide, by decide, by decide⟩


theorem emitWindow_length_le (o : GrepOpts) (relp : String) (lines : List String)
    (matchIdx : Nat) (last : Option Nat) (start endIdx : Nat) :
    (emitWindow o relp lines matchIdx last start endIdx).length ≤ endIdx - start := by
  unfold emitWindow
  refine le_trans (List.length_filterMap_le _ _) ?_
  simp [List.length_range']

theorem grepFileLoop_bound (matcher : String → Bool) (o : GrepOpts) (relp : String)
    (lines : List String) :
    ∀ (rem : List String) (idx : Nat) (ms : List String) (fr : FileRec),
    ms.length ≤ o.maxResults + o.beforeContext + o.afterContext + 1 →
    (grepFileLoop matcher o relp lines rem idx ms fr).1.length ≤
      o.maxResults + o.beforeContext + o.afterContext + 1 := by
  intro rem
  induction rem with
  | nil =>
    intro idx ms fr h
    simpa [grepFileLoop] using h
  | cons line rem ih =>
    intro idx ms fr h
    simp only [grepFileLoop]
    by_cases hcap : o.maxResults ≤ ms.length
    · rw [if_pos hcap]
      exact h
    · rw [if_neg hcap]
      by_cases hm : matcher line
      · rw [if_pos hm]
        dsimp only
        apply ih
        have hw := emitWindow_length_le o relp lines idx fr.lastLineEmitted
          (idx - o.beforeContext) (min lines.length (idx + o.afterContext + 1))
        have hmin := Nat.min_le_right lines.length (idx + o.afterContext + 1)
        by_cases hns : (o.withContextSeparators &&
            (match fr.lastLineEmitted with
              | some l => decide (l < idx - o.beforeContext)
              | none => false)) = true
        · rw [if_pos hns, if_pos hns]
          dsimp only
          simp only [List.length_append, List.length_cons, List.length_nil]
          omega
        · rw [if_neg hns, if_neg hns]
          dsimp only
          simp only [List.length_append]
          omega
      · rw [if_neg hm]
        exact ih _ _ _ h

theorem grepFiles_bound (matcher : String → Bool) (o : GrepOpts) :
    ∀ (files : List (String × List String)) (ms : List String),
    ms.length ≤ o.maxResults + o.beforeContext + o.afterContext + 1 →
    (grepFiles matcher o files ms).length ≤
      o.maxResults + o.beforeContext + o.afterContext + 1 := by
  intro files
  induction files with
  | nil =>
    intro ms h
    simpa [grepFiles] using h
  | cons file rest ih =>
    intro ms h
    rcases file with ⟨relp, lines⟩
    simp only [grepFiles]
    by_cases hcap : o.maxResults ≤ ms.length
    · rw [if_pos hcap]
      exact h
    · rw [if_neg hcap]
      exact ih _ (grepFileLoop_bound matcher o relp lines lines 0 ms ⟨[], 0, none⟩ h)

/-- C10 as amended: the flat search output holds at most
`maxResults + beforeContext + afterContext + 1` lines.  The cap check runs
once per scanned line (and before each file), so a final match accepted
just below the cap may still push its separator and its whole context
window past `maxResults`; subsequent lines, and further files via the walk
stop callback, see the exhausted budget and add nothing. -/
theorem grepSearchFlat_bound (matcher : String → Bool) (o : GrepOpts)
    (files : List (String × List String)) :
    (grepSearchFlat matcher o files).length ≤
      o.maxResults + o.beforeContext + o.afterContext + 1 := by
  unfold grepSearchFlat
  exact grepFiles_bound matcher o files [] (by simp)

/-- Counterexample for C10 as stated: with `maxResults = 1` and
`afterContext = 2`, one match on the first line of a three-line file emits
its full context window of three lines — the flat output has 3 > 1 lines,
so `maxResults` does not bound the emitted output lines. -/
theorem grepSearch_cap_counterexample :
    (grepSearchFlat (buildMatcher ⟨"a", false, true, false, true, false⟩)
        ⟨0, 2, 1, false, false⟩ [("f.txt", ["a", "b", "c"])]).length = 3 ∧
    ¬ ((grepSearchFlat (buildMatcher ⟨"a", false, true, false, true, false⟩)
        ⟨0, 2, 1, false, false⟩ [("f.txt", ["a", "b", "c"])]).length ≤ 1) := by
  refine ⟨by decide, by decide⟩

end Steward
